import Mathlib

/-!
# Verification of the response-curve engine (`gremlin/spline.py`)

This file is a shallow embedding of the curve engine of Joystick Gremlin:
the classes `PiecewiseLinear`, `CubicSpline` and `CubicBezierSpline` of
`gremlin/spline.py`, together with proofs about the claims of the
specification.

Modelling conventions:

* Python floats are embedded as `ℚ` (exact rational arithmetic); every
  constant of the source (`0.05`, `0.01`, `0.00001`, ...) is the exact
  rational it denotes in the source text.
* A Python exception (`IndexError`, `ZeroDivisionError`, `AttributeError`
  on `None`) is modelled by `Option`: a function that can raise returns
  `none` exactly when the Python code raises.
* Python's `sorted(..., key=lambda pt: pt.x)` is a *stable* sort.  It is
  embedded as the stable insertion sort `sortPts` (`foldr` of an insert
  that puts the new element *before* the first element with a key `≥` its
  own; since `foldr` inserts later elements first, earlier elements end up
  before equal-keyed later ones, which is exactly stability).
* `CubicBezierSpline` aliases `Point2D` objects: `_process_points` stores
  the same objects in `self.points` and in `self._control_points`, and
  `invert` mutates the objects reachable from `self.points`.  This is
  modelled by a reference type `PRef`: `Sum.inl i` is the point object
  `self.points[i]` (the arena `pts` of the state), `Sum.inr v` is a fresh
  point object created later (by `add_control_point` or
  `_enforce_symmetry`), which is *not* reachable from `self.points`.
* `CubicBezierSpline._lookup` is recomputed by `fit` after every mutation
  and is a pure function of the control points; it is modelled as derived
  state: `fit` checks that `_generate_lookup` succeeds (it raises if a
  needed tangent handle is `None`) and evaluation recomputes the table.
* `CubicSpline.fit` divides by `h[i] + eps` and `u[i] + eps`; after the
  sort all `h[i] ≥ 0`, so `h[i] + eps > 0`.  `u[i] + eps` is modelled with
  total `ℚ` division (Python would raise only if some `u[i]` is exactly
  `-1e-6`, which no claim exercises).
-/

/- Batteries marks the `Rat` arithmetic `@[irreducible]`, which blocks
`decide` on concrete rational computations; re-allow unfolding (the
kernel re-checks every such proof anyway). -/
set_option allowUnsafeReducibility true in
attribute [semireducible] Rat.add Rat.mul Rat.sub Rat.inv Rat.div Rat.ofScientific

/-- `Point2D` of `gremlin/spline.py`: a 2D coordinate. -/
structure Point2D where
  x : ℚ
  y : ℚ
deriving DecidableEq, Repr

/-- `Point2D.__add__`. -/
instance : Add Point2D := ⟨fun a b => ⟨a.x + b.x, a.y + b.y⟩⟩

/-- `Point2D.__sub__`. -/
instance : Sub Point2D := ⟨fun a b => ⟨a.x - b.x, a.y - b.y⟩⟩

/-- Point reflection through the origin (`Point2D(-p.x, -p.y)`). -/
def negPt (p : Point2D) : Point2D := ⟨-p.x, -p.y⟩

/-- Negation of the y coordinate only (`pt.y *= -1`). -/
def negY (p : Point2D) : Point2D := ⟨p.x, -p.y⟩

/-- The origin, used as an irrelevant `getD` default. -/
def pzero : Point2D := ⟨0, 0⟩

/-- Modelled from the spec: `gremlin.util.clamp(value, low, high)` —
"clamps x to [-1,1] first" / "evaluate(x) ... always clamped to [-1, 1]".
The module `gremlin/util.py` is not part of the provided sources. -/
def clamp (v lo hi : ℚ) : ℚ := min hi (max lo v)

/-! ## Stable sorting by the x coordinate

`sorted(points, key=lambda pt: pt.x)` is Python's stable sort.  `insP`
inserts an element before the first element whose `x` is `≥` its own;
`sortPts = foldr insP []` therefore is the stable ascending sort.
`insD`/`sortD` (stable descending) and `insA` (insert *after* equal keys)
are auxiliary devices used only in proofs. -/

/-- Insert before the first element with `x ≥ p.x`. -/
def insP (p : Point2D) : List Point2D → List Point2D
  | [] => [p]
  | q :: t => if q.x < p.x then q :: insP p t else p :: q :: t

/-- Python's `sorted(l, key=lambda pt: pt.x)`: the stable ascending sort. -/
def sortPts (l : List Point2D) : List Point2D := l.foldr insP []

/-- Proof device: insert before the first element with `x ≤ p.x`
(stable *descending* insertion). -/
def insD (p : Point2D) : List Point2D → List Point2D
  | [] => [p]
  | q :: t => if p.x < q.x then q :: insD p t else p :: q :: t

/-- Proof device: the stable descending sort. -/
def sortD (l : List Point2D) : List Point2D := l.foldr insD []

/-- Proof device: insert after every element with `x ≤ p.x`. -/
def insA (p : Point2D) : List Point2D → List Point2D
  | [] => [p]
  | q :: t => if q.x ≤ p.x then q :: insA p t else p :: q :: t

/-! ## `PiecewiseLinear` -/

/-- The state of a `PiecewiseLinear` curve: its control points and the
`_is_symmetric` flag. -/
structure PiecewiseLinear where
  points : List Point2D
  is_symmetric : Bool
deriving DecidableEq, Repr

/-- `_enforce_symmetry` of `PiecewiseLinear`/`CubicSpline` (the two bodies
are identical): for `i in range(int(count/2))`, `points[-i-1]` is
overwritten with the reflection of `points[i]`; if the count is odd the
middle point is replaced by `Point2D(0.0, 0.0)`. -/
def enforceSymmetryPts (l : List Point2D) : List Point2D :=
  let h := l.length / 2
  l.take h ++ (if l.length % 2 = 1 then [pzero] else []) ++
    ((l.take h).map negPt).reverse

namespace PiecewiseLinear

/-- `PiecewiseLinear._process_points`: build fresh `Point2D`s sorted by x. -/
def processPoints (l : List (ℚ × ℚ)) : PiecewiseLinear :=
  { points := sortPts (l.map fun q => ⟨q.1, q.2⟩), is_symmetric := false }

/-- `PiecewiseLinear.fit`: re-sort the points by x. -/
def fit (c : PiecewiseLinear) : PiecewiseLinear :=
  { c with points := sortPts c.points }

/-- `PiecewiseLinear.__init__`: `_process_points` then `fit()` (from
`AbstractCurve.__init__`) then `fit()` again. -/
def construct (l : List (ℚ × ℚ)) : PiecewiseLinear :=
  fit (fit (processPoints l))

/-- `PiecewiseLinear._default_points()`. -/
def defaultPoints : List (ℚ × ℚ) := [(-1, -1), (1, 1)]

/-- `PiecewiseLinear.add_control_point`: append `(x, y)`, if symmetric
also append `(-x, -y)`, then sort. -/
def addControlPoint (c : PiecewiseLinear) (x y : ℚ) : PiecewiseLinear :=
  { c with points := sortPts (c.points ++ [⟨x, y⟩] ++
      (if c.is_symmetric then [⟨-x, -y⟩] else [])) }

/-- `PiecewiseLinear.invert`: negate every y in place (no `fit`). -/
def invert (c : PiecewiseLinear) : PiecewiseLinear :=
  { c with points := c.points.map negY }

/-- The `is_symmetric` setter of `AbstractCurve`: on a change, set the
flag, enforce symmetry when turning it on, then `fit()`. -/
def setIsSymmetric (c : PiecewiseLinear) (v : Bool) : PiecewiseLinear :=
  if v = c.is_symmetric then c
  else
    let c' := { c with is_symmetric := v }
    if v then fit { c' with points := enforceSymmetryPts c'.points }
    else fit c'

/-- The linear scan of `PiecewiseLinear.__call__`: first adjacent pair
with `a.x <= x < b.x`; falling through the loop returns Python `None`,
modelled as `none`. -/
def scan : List Point2D → ℚ → Option ℚ
  | a :: b :: t, x =>
      if a.x ≤ x ∧ x < b.x then
        some (a.y + (b.y - a.y) * (x - a.x) / (b.x - a.x))
      else scan (b :: t) x
  | _, _ => none

/-- Body of `PiecewiseLinear.__call__` after the clamp. -/
def evalCore (c : PiecewiseLinear) (x : ℚ) : Option ℚ :=
  match c.points, c.points.getLast? with
  | p0 :: _, some pl =>
      if x ≤ p0.x then some p0.y
      else if pl.x ≤ x then some pl.y
      else scan c.points x
  | _, _ => none

/-- `PiecewiseLinear.__call__`: clamp x to [-1, 1], then interpolate. -/
def eval (c : PiecewiseLinear) (x : ℚ) : Option ℚ :=
  evalCore c (clamp x (-1) 1)

end PiecewiseLinear

/-! ## `CubicSpline` -/

/-- The state of a `CubicSpline` curve: points, the second-derivative
array `z`, and the `_is_symmetric` flag. -/
structure CubicSpline where
  points : List Point2D
  z : List ℚ
  is_symmetric : Bool
deriving DecidableEq, Repr

namespace CubicSpline

/-- `eps = 0.000001` of `CubicSpline.fit`. -/
def eps : ℚ := 1 / 1000000

/-- `h[i] = points[i+1].x - points[i].x` (0 out of range). -/
def hval (P : List Point2D) (i : ℕ) : ℚ :=
  (P.getD (i + 1) pzero).x - (P.getD i pzero).x

/-- `b[i] = (points[i+1].y - points[i].y) / (h[i] + eps)`. -/
def bval (P : List Point2D) (i : ℕ) : ℚ :=
  ((P.getD (i + 1) pzero).y - (P.getD i pzero).y) / (hval P i + eps)

/-- The forward substitution of `CubicSpline.fit`: `uv P i = (u[i], v[i])`
with `u[1] = 2(h[0]+h[1])`, `v[1] = 6(b[1]-b[0])` and for `i ≥ 2`
`u[i] = 2(h[i]+h[i-1]) - h[i-1]^2/(u[i-1]+eps)`,
`v[i] = 6(b[i]-b[i-1]) - h[i-1]*v[i-1]/(u[i-1]+eps)`.
Index 0 is the unused initial `0.0` entry. -/
def uv (P : List Point2D) : ℕ → ℚ × ℚ
  | 0 => (0, 0)
  | 1 => (2 * (hval P 0 + hval P 1), 6 * (bval P 1 - bval P 0))
  | i + 2 =>
      let p := uv P (i + 1)
      (2 * (hval P (i + 2) + hval P (i + 1)) - (hval P (i + 1)) ^ 2 / (p.1 + eps),
       6 * (bval P (i + 2) - bval P (i + 1)) - (hval P (i + 1)) * p.2 / (p.1 + eps))

/-- The back substitution of `CubicSpline.fit`: `zFrom P n j = z[n - j]`,
i.e. `z[n] = 0`, `z[i] = (v[i] - h[i]*z[i+1]) / (u[i]+eps)` for
`i = n-1, ..., 1`, and `z[0] = 0`. -/
def zFrom (P : List Point2D) (n : ℕ) : ℕ → ℚ
  | 0 => 0
  | j + 1 =>
      let i := n - (j + 1)
      if i = 0 then 0
      else ((uv P i).2 - hval P i * zFrom P n j) / ((uv P i).1 + eps)

/-- The `z` array computed by `CubicSpline.fit` from sorted points `P`
(defined for `P.length - 1 ≥ 2`); it has the length of `P`. -/
def fitZCore (P : List Point2D) : List ℚ :=
  let n := P.length - 1
  (List.range (n + 1)).map fun i => zFrom P n (n - i)

/-- The effect of `CubicSpline.fit` on `z`: a no-op when there are fewer
than 3 points, otherwise indices `0..n` are overwritten (entries of a
longer `z` beyond `n` are kept; Python raises on a shorter `z`, which no
reachable state produces). -/
def fitZ (P : List Point2D) (old : List ℚ) : List ℚ :=
  if P.length - 1 < 2 then old
  else fitZCore P ++ old.drop P.length

/-- `CubicSpline.fit`: sort the points, recompute `z`. -/
def fit (c : CubicSpline) : CubicSpline :=
  { points := sortPts c.points
    z := fitZ (sortPts c.points) c.z
    is_symmetric := c.is_symmetric }

/-- `CubicSpline._process_points`: sorted fresh points, `z` all zero. -/
def processPoints (l : List (ℚ × ℚ)) : CubicSpline :=
  let P := sortPts (l.map fun q => ⟨q.1, q.2⟩)
  { points := P, z := List.replicate P.length 0, is_symmetric := false }

/-- `CubicSpline.__init__`: `_process_points` then `fit()`. -/
def construct (l : List (ℚ × ℚ)) : CubicSpline :=
  fit (processPoints l)

/-- `CubicSpline._default_points()`. -/
def defaultPoints : List (ℚ × ℚ) := [(-1, -1), (1, 1)]

/-- `CubicSpline.add_control_point`: append the point, append `0.0` to
`z`, then `fit()`.  (No mirror point is inserted, whatever
`is_symmetric`.) -/
def addControlPoint (c : CubicSpline) (x y : ℚ) : CubicSpline :=
  fit { c with points := c.points ++ [⟨x, y⟩], z := c.z ++ [0] }

/-- `CubicSpline.invert`: negate every y, then `fit()`. -/
def invert (c : CubicSpline) : CubicSpline :=
  fit { c with points := c.points.map negY }

/-- The `is_symmetric` setter (identical to the piecewise-linear one). -/
def setIsSymmetric (c : CubicSpline) (v : Bool) : CubicSpline :=
  if v = c.is_symmetric then c
  else
    let c' := { c with is_symmetric := v }
    if v then fit { c' with points := enforceSymmetryPts c'.points }
    else fit c'

/-- The segment search of `CubicSpline.__call__`: the first `i` with
`points[i].x <= x <= points[i+1].x`, else the last loop index `n-2`
(or the initial `0` when the loop body never runs). -/
def segIndex (P : List Point2D) (x : ℚ) : ℕ :=
  match (P.zip P.tail).findIdx? (fun ab => ab.1.x ≤ x ∧ x ≤ ab.2.x) with
  | some k => k
  | none => if 2 ≤ P.length then P.length - 2 else 0

/-- `CubicSpline.__call__` (note: *no* clamping of `x`).  Out-of-range
indexing (fewer than 2 points) is `none`; the division is by
`h = points[i+1].x - points[i].x + 0.00001`, zero only for unsorted
points (Python would raise, modelled as `none`). -/
def eval (c : CubicSpline) (x : ℚ) : Option ℚ := do
  let i := segIndex c.points x
  let a ← c.points.get? i
  let b ← c.points.get? (i + 1)
  let zi ← c.z.get? i
  let zi1 ← c.z.get? (i + 1)
  let h := b.x - a.x + 1 / 100000
  if h = 0 then none
  else
    let tmp := zi / 2 + (x - a.x) * (zi1 - zi) / (6 * h)
    let tmp := -(h / 6) * (zi1 + 2 * zi) + (b.y - a.y) / h + (x - a.x) * tmp
    some (a.y + (x - a.x) * tmp)

end CubicSpline

/-! ## `CubicBezierSpline`

Point objects are shared between `self.points` and `self._control_points`
(see the header).  `PRef` is a reference to a `Point2D` object:
`Sum.inl i` refers to `self.points[i]` (mutated by `invert`), `Sum.inr v`
is a later-created object holding the value `v`, never mutated again. -/

/-- A reference to a `Point2D` object of a `CubicBezierSpline`. -/
abbrev PRef : Type := Sum ℕ Point2D

/-- Read the point object behind a reference (`pts` is `self.points`). -/
def derefP (pts : List Point2D) : PRef → Point2D
  | Sum.inl i => pts.getD i pzero
  | Sum.inr v => v

/-- `CubicBezierSpline.ControlPoint`: a knot with optional tangent
handles. -/
structure BezCP where
  center : PRef
  handle_left : Option PRef
  handle_right : Option PRef
deriving DecidableEq

/-- An irrelevant `getD` default control point. -/
def dummyCP : BezCP := ⟨Sum.inr pzero, none, none⟩

/-- The state of a `CubicBezierSpline`: the flat point arena
`self.points`, the control points `self._control_points`, and the
`_is_symmetric` flag (`self._lookup` is derived state, see the header). -/
structure CubicBezierSpline where
  pts : List Point2D
  cps : List BezCP
  is_symmetric : Bool
deriving DecidableEq

namespace CubicBezierSpline

/-- Stable insertion for `fit`'s sort of the control points by the x
coordinate of their (dereferenced) centers. -/
def insB (pts : List Point2D) (c : BezCP) : List BezCP → List BezCP
  | [] => [c]
  | d :: t =>
      if (derefP pts d.center).x < (derefP pts c.center).x then
        d :: insB pts c t
      else c :: d :: t

/-- `sorted(self._control_points, key=lambda cp: cp.center.x)`. -/
def sortB (pts : List Point2D) (cps : List BezCP) : List BezCP :=
  cps.foldr (insB pts) []

/-- `CubicBezierSpline._value_at_t`, verbatim — including the source's
`mt3 = mt2 ** 3`, which is `(1-t)^6` and *not* `(1-t)^3`. -/
def valueAtT (p0 p1 p2 p3 : Point2D) (t : ℚ) : Point2D :=
  let t2 := t ^ 2
  let t3 := t ^ 3
  let mt := 1 - t
  let mt2 := mt ^ 2
  let mt3 := mt2 ^ 3
  ⟨p0.x * mt3 + 3 * p1.x * mt2 * t + 3 * p2.x * mt * t2 + p3.x * t3,
   p0.y * mt3 + 3 * p1.y * mt2 * t + 3 * p2.y * mt * t2 + p3.y * t3⟩

/-- One segment's 101-entry table: `(t, _value_at_t(points, t))` for
`t = j * 0.01`, `j = 0..100`. -/
def segTable (p0 p1 p2 p3 : Point2D) : List (ℚ × Point2D) :=
  (List.range 101).map fun j => ((j : ℚ) * (1 / 100), valueAtT p0 p1 p2 p3 ((j : ℚ) * (1 / 100)))

/-- `CubicBezierSpline._generate_lookup`: one table per consecutive pair
of control points, built from `[cp1.center, cp1.handle_right,
cp2.handle_left, cp2.center]`; a missing (`None`) handle makes
`_value_at_t` raise, modelled as `none`. -/
def genLookup (pts : List Point2D) : List BezCP → Option (List (List (ℚ × Point2D)))
  | c1 :: c2 :: rest => do
      let hr ← c1.handle_right
      let hl ← c2.handle_left
      let tbl := segTable (derefP pts c1.center) (derefP pts hr)
        (derefP pts hl) (derefP pts c2.center)
      let rest' ← genLookup pts (c2 :: rest)
      some (tbl :: rest')
  | _ => some []

/-- `CubicBezierSpline.fit`: sort the control points by center x, then
regenerate the lookup tables (`none` if `_generate_lookup` raises). -/
def fit (b : CubicBezierSpline) : Option CubicBezierSpline :=
  (genLookup b.pts (sortB b.pts b.cps)).map
    fun _ => { b with cps := sortB b.pts b.cps }

/-- The middle-control-point indices of `_process_points`:
`range(2, len(points) - 2, 3)`. -/
def midIdxs (L : ℕ) : List ℕ := List.range' 2 ((L - 2) / 3) 3

/-- `CubicBezierSpline._process_points`: the flat arena plus the control
point structures: `ControlPoint(points[0], handle_right=points[1])`, then
`ControlPoint(points[i-1], points[i], points[i+1])` for each `i` in
`range(2, len(points)-2, 3)`, then
`ControlPoint(points[-1], handle_left=points[-2])`.  Fewer than 2 points
raise an `IndexError` (`none`).  No point-count validity check is
performed. -/
def processPoints (l : List (ℚ × ℚ)) : Option CubicBezierSpline :=
  let pts : List Point2D := l.map fun q => ⟨q.1, q.2⟩
  let L := pts.length
  if 2 ≤ L then
    some { pts := pts
           cps := [⟨Sum.inl 0, none, some (Sum.inl 1)⟩] ++
             ((midIdxs L).map fun i =>
               ⟨Sum.inl (i - 1), some (Sum.inl i), some (Sum.inl (i + 1))⟩) ++
             [⟨Sum.inl (L - 1), some (Sum.inl (L - 2)), none⟩]
           is_symmetric := false }
  else none

/-- `CubicBezierSpline.__init__`: `_process_points` then `fit()`. -/
def construct (l : List (ℚ × ℚ)) : Option CubicBezierSpline :=
  processPoints l >>= fit

/-- `CubicBezierSpline._default_points()`. -/
def defaultPoints : List (ℚ × ℚ) :=
  [(-1, -1), (-19/20, -19/20), (19/20, 19/20), (1, 1)]

/-- `CubicBezierSpline.add_control_point`: append one `ControlPoint` with
fresh center `(x, y)` and fresh handles at `(x∓0.05, y)`, then `fit()`.
(No mirror point is inserted, whatever `is_symmetric`; the fresh objects
are not added to `self.points`.) -/
def addControlPoint (b : CubicBezierSpline) (x y : ℚ) : Option CubicBezierSpline :=
  fit { b with cps := b.cps ++
    [⟨Sum.inr ⟨x, y⟩, some (Sum.inr ⟨x - 1/20, y⟩), some (Sum.inr ⟨x + 1/20, y⟩)⟩] }

/-- `CubicBezierSpline.invert`: negate the y of every object in
`self.points` (the control points alias into this arena; objects created
by `add_control_point`/`_enforce_symmetry` are *not* negated), then
`fit()`. -/
def invert (b : CubicBezierSpline) : Option CubicBezierSpline :=
  fit { b with pts := b.pts.map negY }

/-- The mirroring of `_enforce_symmetry` applied to the control point
opposite `cp1`, whose previous value is `old`: the center is replaced by
the reflected center; each handle is replaced by the reflection of
`cp1`'s opposite handle when that handle exists, otherwise kept. -/
def mirrorWith (pts : List Point2D) (cp1 old : BezCP) : BezCP :=
  let c1 := derefP pts cp1.center
  let nc : Point2D := ⟨-c1.x, -c1.y⟩
  { center := Sum.inr nc
    handle_right := match cp1.handle_left with
      | some r => some (Sum.inr (nc - (derefP pts r - c1)))
      | none => old.handle_right
    handle_left := match cp1.handle_right with
      | some r => some (Sum.inr (nc - (derefP pts r - c1)))
      | none => old.handle_left }

/-- `CubicBezierSpline._enforce_symmetry`: the first half is untouched;
control point `count-1-i` is overwritten by the mirror of control point
`i`; for an odd count the middle center is replaced by `Point2D(0,0)`
(its handles are kept). -/
def enforceB (pts : List Point2D) (cps : List BezCP) : List BezCP :=
  let n := cps.length
  let h := n / 2
  cps.take h ++
    (if n % 2 = 1 then [{ cps.getD h dummyCP with center := Sum.inr pzero }] else []) ++
    List.zipWith (mirrorWith pts) (cps.take h).reverse (cps.drop (n - h))

/-- The `is_symmetric` setter for `CubicBezierSpline`. -/
def setIsSymmetric (b : CubicBezierSpline) (v : Bool) : Option CubicBezierSpline :=
  if v = b.is_symmetric then some b
  else
    let b' := { b with is_symmetric := v }
    if v then fit { b' with cps := enforceB b'.pts b'.cps }
    else fit b'

/-- The dereferenced centers of the control points, in order. -/
def centers (b : CubicBezierSpline) : List Point2D :=
  b.cps.map fun cp => derefP b.pts cp.center

/-- The segment scan of `__call__`'s `else` branch: the number of leading
adjacent control-point pairs whose span does not contain x. -/
def segScan (pts : List Point2D) (cps : List BezCP) (x : ℚ) : ℕ :=
  match (cps.zip cps.tail).findIdx?
      (fun cc => (derefP pts cc.1.center).x ≤ x ∧ x ≤ (derefP pts cc.2.center).x) with
  | some k => k
  | none => cps.length - 1

/-- The binary search of `__call__` over one lookup table, with explicit
fuel (the loop strictly shrinks `hi - lo` while it is `≥ 2`, so
`hi - lo` steps always suffice; a start distance of `0` cannot arise from
`__call__`, which starts from `[0, 101]`). -/
def binSearchAux (tbl : List (ℚ × Point2D)) (x : ℚ) : ℕ → ℕ × ℕ → ℕ × ℕ
  | 0, iv => iv
  | fuel + 1, (lo, hi) =>
      if hi - lo ≤ 1 then (lo, hi)
      else
        let c := lo + (hi - lo) / 2
        if (tbl.getD c (0, pzero)).2.x < x then binSearchAux tbl x fuel (c, hi)
        else binSearchAux tbl x fuel (lo, c)

/-- The binary search on `interval = [0, len(table)]`. -/
def binSearch (tbl : List (ℚ × Point2D)) (x : ℚ) : ℕ × ℕ :=
  binSearchAux tbl x tbl.length (0, tbl.length)

/-- Body of `CubicBezierSpline.__call__` after the clamp: pick the
segment, binary-search its lookup table, linearly interpolate.  `none`
models the possible `IndexError` (`interval[1]` can end at
`len(table)`) and `ZeroDivisionError`. -/
def evalCore (b : CubicBezierSpline) (x : ℚ) : Option ℚ := do
  let lookup ← genLookup b.pts b.cps
  let cp0 ← b.cps.head?
  let cpl ← b.cps.getLast?
  let index :=
    if x < (derefP b.pts cp0.center).x then 0
    else if (derefP b.pts cpl.center).x < x then lookup.length - 1
    else segScan b.pts b.cps x
  let tbl ← lookup.get? index
  let iv := binSearch tbl x
  let lowE ← tbl.get? iv.1
  let highE ← tbl.get? iv.2
  let low := lowE.2
  let high := highE.2
  if high.x - low.x = 0 then none
  else some (low.y + (x - low.x) * ((high.y - low.y) / (high.x - low.x)))

/-- `CubicBezierSpline.__call__`: clamp x to [-1, 1], then evaluate.
(`fit` has sorted `self._control_points` in every reachable state, so
recomputing the lookup from the sorted control points is the cached
`self._lookup`.) -/
def eval (b : CubicBezierSpline) (x : ℚ) : Option ℚ :=
  evalCore b (clamp x (-1) 1)

end CubicBezierSpline

/-! ## Spec-side definition and concrete states used by the claims -/

/-- From the claim (C5) / spec wording: "the standard cubic Bézier point
`(1-t)^3*P0 + 3(1-t)^2*t*P1 + 3(1-t)*t^2*P2 + t^3*P3`".  This is the
formula the lookup table is *claimed* to contain, to be compared with the
source's `valueAtT`. -/
def standardBezier (p0 p1 p2 p3 : Point2D) (t : ℚ) : Point2D :=
  ⟨(1 - t) ^ 3 * p0.x + 3 * (1 - t) ^ 2 * t * p1.x + 3 * (1 - t) * t ^ 2 * p2.x + t ^ 3 * p3.x,
   (1 - t) ^ 3 * p0.y + 3 * (1 - t) ^ 2 * t * p1.y + 3 * (1 - t) * t ^ 2 * p2.y + t ^ 3 * p3.y⟩

/-- The default piecewise-linear curve `[(-1,-1),(1,1)]`. -/
def cPL : PiecewiseLinear := PiecewiseLinear.construct PiecewiseLinear.defaultPoints

/-- The default cubic-spline curve `[(-1,-1),(1,1)]`. -/
def cCS : CubicSpline := CubicSpline.construct CubicSpline.defaultPoints

/-- An irrelevant `getD` default Bézier state. -/
def dummyBez : CubicBezierSpline := ⟨[], [], false⟩

/-- The default Bézier curve. -/
def cBez : CubicBezierSpline :=
  (CubicBezierSpline.construct CubicBezierSpline.defaultPoints).getD dummyBez

/-- A structurally valid (`L = 4`, `(L-4) % 3 = 0`) Bézier curve whose
last knot is at `x = 0.5 < 1`. -/
def bezBad : CubicBezierSpline :=
  (CubicBezierSpline.construct
    [(-1, -1), (-9/10, -9/10), (2/5, 2/5), (1/2, 1/2)]).getD dummyBez

/-- The default cubic spline switched to symmetric mode. -/
def cCSsym : CubicSpline := cCS.setIsSymmetric true

/-- An ascending flat point list of length `L` (for the construction
claims). -/
def bezLenPoints (L : ℕ) : List (ℚ × ℚ) :=
  (List.range L).map fun i => ((i : ℚ) / 10, (i : ℚ) / 10)

/-- A piecewise-linear curve that is not symmetric around the origin. -/
def pAsym : PiecewiseLinear :=
  PiecewiseLinear.construct [(-1, -1), (-1/2, 3/10), (1/5, 9/10), (1, 1)]

/-- A cubic-spline curve that is not symmetric around the origin. -/
def csAsym : CubicSpline :=
  CubicSpline.construct [(-1, -1), (-1/2, 3/10), (1/5, 9/10), (1, 1)]

/-- A Bézier curve that is not symmetric around the origin. -/
def bAsym : CubicBezierSpline :=
  (CubicBezierSpline.construct
    [(-1, -1), (-19/20, -19/20), (19/20, 1/2), (1, 1)]).getD dummyBez

/-- A piecewise-linear curve with three strictly ascending control points
inside `[-1, 1]` (for the interpolation claim). -/
def pl3 : PiecewiseLinear := PiecewiseLinear.construct [(-1, -1), (0, 1), (1, 1)]

/-! # Theorems

## The stable sort: basic lemmas -/

theorem negPt_negPt (p : Point2D) : negPt (negPt p) = p := by
  simp [negPt]

theorem negY_negY (p : Point2D) : negY (negY p) = p := by
  simp [negY]

theorem negPt_x (p : Point2D) : (negPt p).x = -p.x := rfl

theorem negY_x (p : Point2D) : (negY p).x = p.x := rfl

theorem mem_insP {a p : Point2D} {l : List Point2D} :
    a ∈ insP p l → a = p ∨ a ∈ l := by
  induction l with
  | nil => simp [insP]
  | cons q t ih =>
      by_cases h : q.x < p.x <;> simp only [insP, h, if_true, if_false, List.mem_cons] <;> intro hm
      · rcases hm with hm | hm
        · exact Or.inr (Or.inl hm)
        · rcases ih hm with hm | hm
          · exact Or.inl hm
          · exact Or.inr (Or.inr hm)
      · tauto

theorem mem_insD {a p : Point2D} {l : List Point2D} :
    a ∈ insD p l → a = p ∨ a ∈ l := by
  induction l with
  | nil => simp [insD]
  | cons q t ih =>
      by_cases h : p.x < q.x <;> simp only [insD, h, if_true, if_false, List.mem_cons] <;> intro hm
      · rcases hm with hm | hm
        · exact Or.inr (Or.inl hm)
        · rcases ih hm with hm | hm
          · exact Or.inl hm
          · exact Or.inr (Or.inr hm)
      · tauto

theorem length_insP (p : Point2D) (l : List Point2D) :
    (insP p l).length = l.length + 1 := by
  induction l with
  | nil => rfl
  | cons q t ih => by_cases h : q.x < p.x <;> simp [insP, h, ih]

theorem length_sortPts (l : List Point2D) :
    (sortPts l).length = l.length := by
  induction l with
  | nil => rfl
  | cons p t ih =>
      show (insP p (sortPts t)).length = t.length + 1
      rw [length_insP, ih]

theorem pairwise_insP {p : Point2D} {l : List Point2D}
    (hl : l.Pairwise (fun a b => a.x ≤ b.x)) :
    (insP p l).Pairwise (fun a b => a.x ≤ b.x) := by
  induction l with
  | nil => simp [insP]
  | cons q t ih =>
      rcases List.pairwise_cons.mp hl with ⟨hq, ht⟩
      by_cases h : q.x < p.x
      · simp only [insP, h, if_true]
        refine List.pairwise_cons.mpr ⟨?_, ih ht⟩
        intro a ha
        rcases mem_insP ha with rfl | ha
        · exact le_of_lt h
        · exact hq a ha
      · simp only [insP, h, if_false]
        refine List.pairwise_cons.mpr ⟨?_, hl⟩
        intro a ha
        rcases List.mem_cons.mp ha with rfl | ha
        · exact le_of_not_lt h
        · exact le_trans (le_of_not_lt h) (hq a ha)

theorem pairwise_sortPts (l : List Point2D) :
    (sortPts l).Pairwise (fun a b => a.x ≤ b.x) := by
  induction l with
  | nil => simp [sortPts]
  | cons p t ih => exact pairwise_insP ih

theorem insP_of_head_le {p q : Point2D} {t : List Point2D} (h : p.x ≤ q.x) :
    insP p (q :: t) = p :: q :: t := by
  simp [insP, not_lt.mpr h]

theorem sortPts_of_sorted {l : List Point2D}
    (hl : l.Pairwise (fun a b => a.x ≤ b.x)) : sortPts l = l := by
  induction l with
  | nil => rfl
  | cons p t ih =>
      rcases List.pairwise_cons.mp hl with ⟨hp, ht⟩
      show insP p (sortPts t) = p :: t
      rw [ih ht]
      cases t with
      | nil => rfl
      | cons q t' => exact insP_of_head_le (hp q (List.mem_cons_self q t'))

theorem sortPts_idem (l : List Point2D) : sortPts (sortPts l) = sortPts l :=
  sortPts_of_sorted (pairwise_sortPts l)

theorem pairwise_insD {p : Point2D} {l : List Point2D}
    (hl : l.Pairwise (fun a b => b.x ≤ a.x)) :
    (insD p l).Pairwise (fun a b => b.x ≤ a.x) := by
  induction l with
  | nil => simp [insD]
  | cons q t ih =>
      rcases List.pairwise_cons.mp hl with ⟨hq, ht⟩
      by_cases h : p.x < q.x
      · simp only [insD, h, if_true]
        refine List.pairwise_cons.mpr ⟨?_, ih ht⟩
        intro a ha
        rcases mem_insD ha with rfl | ha
        · exact le_of_lt h
        · exact hq a ha
      · simp only [insD, h, if_false]
        refine List.pairwise_cons.mpr ⟨?_, hl⟩
        intro a ha
        rcases List.mem_cons.mp ha with rfl | ha
        · exact le_of_not_lt h
        · exact le_trans (hq a ha) (le_of_not_lt h)

theorem pairwise_sortD (l : List Point2D) :
    (sortD l).Pairwise (fun a b => b.x ≤ a.x) := by
  induction l with
  | nil => simp [sortD]
  | cons p t ih => exact pairwise_insD ih

/-! ## The stable sort: reversal and mirroring -/

theorem insA_append {p q : Point2D} (l : List Point2D) (h : p.x < q.x) :
    insA p (l ++ [q]) = insA p l ++ [q] := by
  induction l with
  | nil => simp [insA, not_le.mpr h]
  | cons r t ih =>
      by_cases hr : r.x ≤ p.x
      · show insA p (r :: (t ++ [q])) = insA p (r :: t) ++ [q]
        simp only [insA, hr, if_true, List.cons_append, ih]
      · show insA p (r :: (t ++ [q])) = insA p (r :: t) ++ [q]
        simp only [insA, hr, if_false, List.cons_append]

theorem insA_of_all_le {p : Point2D} {l : List Point2D}
    (h : ∀ r ∈ l, r.x ≤ p.x) : insA p l = l ++ [p] := by
  induction l with
  | nil => rfl
  | cons r t ih =>
      have hr : r.x ≤ p.x := h r (List.mem_cons_self r t)
      simp only [insA, hr, if_true, List.cons_append]
      rw [ih fun a ha => h a (List.mem_cons_of_mem r ha)]

theorem reverse_insD {p : Point2D} {l : List Point2D}
    (hl : l.Pairwise (fun a b => b.x ≤ a.x)) :
    (insD p l).reverse = insA p l.reverse := by
  induction l with
  | nil => rfl
  | cons q t ih =>
      rcases List.pairwise_cons.mp hl with ⟨hq, ht⟩
      by_cases h : p.x < q.x
      · simp only [insD, h, if_true, List.reverse_cons, ih ht]
        exact (insA_append t.reverse h).symm
      · simp only [insD, h, if_false, List.reverse_cons]
        have hall : ∀ r ∈ t.reverse ++ [q], r.x ≤ p.x := by
          intro r hr
          rcases List.mem_append.mp hr with hr | hr
          · exact le_trans (hq r (List.mem_reverse.mp hr)) (le_of_not_lt h)
          · rcases List.mem_singleton.mp hr with rfl
            exact le_of_not_lt h
        rw [insA_of_all_le hall]

theorem insP_insA_comm (q p : Point2D) (m : List Point2D) :
    insP q (insA p m) = insA p (insP q m) := by
  induction m with
  | nil =>
      by_cases h : p.x < q.x
      · simp [insP, insA, h, not_le.mpr h]
      · simp [insP, insA, h, not_lt.mp h]
  | cons r s ih =>
      by_cases h1 : r.x ≤ p.x
      · by_cases h2 : r.x < q.x
        · simp only [insA, h1, if_true, insP, h2, ih]
        · have h3 : q.x ≤ p.x := le_trans (not_lt.mp h2) h1
          simp only [insA, h1, if_true, insP, h2, if_false, h3]
      · by_cases h2 : r.x < q.x
        · have h4 : p.x < q.x := lt_trans (not_le.mp h1) h2
          simp only [insA, h1, if_false, insP, h4, if_true, h2]
        · by_cases h5 : p.x < q.x
          · simp only [insA, h1, if_false, insP, h5, if_true, h2,
              not_le.mpr h5]
          · simp only [insA, h1, if_false, insP, h5, if_false, h2,
              not_lt.mp h5, if_true]

theorem foldr_insP_base (p : Point2D) (l : List Point2D) :
    l.foldr insP [p] = insA p (l.foldr insP []) := by
  induction l with
  | nil => rfl
  | cons a t ih => simp only [List.foldr_cons, ih, insP_insA_comm]

theorem sortPts_append_one (l : List Point2D) (p : Point2D) :
    sortPts (l ++ [p]) = insA p (sortPts l) := by
  unfold sortPts
  rw [List.foldr_append]
  exact foldr_insP_base p l

theorem sortD_reverse (B : List Point2D) :
    (sortD B).reverse = sortPts B.reverse := by
  induction B with
  | nil => rfl
  | cons p t ih =>
      show (insD p (sortD t)).reverse = sortPts ((p :: t).reverse)
      rw [reverse_insD (pairwise_sortD t), ih, List.reverse_cons,
        sortPts_append_one]

theorem map_negPt_insP (p : Point2D) (l : List Point2D) :
    (insP p l).map negPt = insD (negPt p) (l.map negPt) := by
  induction l with
  | nil => rfl
  | cons q t ih =>
      have hc : (negPt p).x < (negPt q).x ↔ q.x < p.x := by
        simp [negPt]
      by_cases h : q.x < p.x
      · simp only [insP, h, if_true, List.map_cons, insD, hc.mpr h, ih]
      · simp only [insP, h, if_false, List.map_cons, insD,
          hc.not.mpr h, ite_false]

theorem map_negPt_sortPts (l : List Point2D) :
    (sortPts l).map negPt = sortD (l.map negPt) := by
  induction l with
  | nil => rfl
  | cons p t ih =>
      show (insP p (sortPts t)).map negPt = insD (negPt p) (sortD (t.map negPt))
      rw [← ih]
      exact map_negPt_insP p (sortPts t)

/-- The key preservation result: the stable sort preserves the mirror
pairing `l.reverse = l.map negPt`. -/
theorem sortPts_pairing {A : List Point2D} (hA : A.reverse = A.map negPt) :
    (sortPts A).reverse = (sortPts A).map negPt := by
  have h1 : (sortPts A).map negPt = sortD A.reverse := by
    rw [map_negPt_sortPts, hA]
  have h2 : sortD A.reverse = (sortPts A).reverse := by
    have := sortD_reverse A.reverse
    rw [List.reverse_reverse] at this
    rw [← this, List.reverse_reverse]
  rw [h1, h2]

theorem map_negY_insP (p : Point2D) (l : List Point2D) :
    (insP p l).map negY = insP (negY p) (l.map negY) := by
  induction l with
  | nil => rfl
  | cons q t ih =>
      have hc : (negY q).x < (negY p).x ↔ q.x < p.x := Iff.rfl
      by_cases h : q.x < p.x
      · simp only [insP, h, if_true, List.map_cons, hc.mpr h, ih]
      · simp only [insP, h, if_false, List.map_cons, hc.not.mpr h, ite_false]

theorem map_negY_sortPts (l : List Point2D) :
    (sortPts l).map negY = sortPts (l.map negY) := by
  induction l with
  | nil => rfl
  | cons p t ih =>
      show (insP p (sortPts t)).map negY = insP (negY p) (sortPts (t.map negY))
      rw [map_negY_insP, ih]

/-! ## The mirror pairing: enforcement shape and index form -/

theorem negPt_pzero : negPt pzero = pzero := by
  simp [negPt, pzero]

/-- Any list of the shape produced by `_enforce_symmetry` — a first half,
an optional origin middle, and the reversed reflection of the first
half — satisfies the mirror pairing `l.reverse = l.map negPt`. -/
theorem pairing_shape (F M : List Point2D) (hM : M.reverse = M.map negPt) :
    (F ++ M ++ (F.map negPt).reverse).reverse
      = (F ++ M ++ (F.map negPt).reverse).map negPt := by
  have hinv : ∀ l : List Point2D, (l.map negPt).map negPt = l := by
    intro l
    rw [List.map_map, show negPt ∘ negPt = id from funext negPt_negPt,
      List.map_id]
  simp only [List.reverse_append, List.reverse_reverse, List.map_append,
    List.map_reverse, hM, hinv, List.append_assoc]

theorem enforce_pairing (l : List Point2D) :
    (enforceSymmetryPts l).reverse = (enforceSymmetryPts l).map negPt := by
  unfold enforceSymmetryPts
  apply pairing_shape
  by_cases h : l.length % 2 = 1 <;> simp [h, negPt_pzero]

/-- Index form of the pairing: the point at index `count-1-i` is the
reflection of the point at index `i`. -/
theorem pairing_getD {S : List Point2D}
    (hp : S.reverse = S.map negPt) {i : ℕ} (hi : i < S.length) :
    S.getD (S.length - 1 - i) pzero = negPt (S.getD i pzero) := by
  have h1 : S.reverse[i]? = S[S.length - 1 - i]? := List.getElem?_reverse hi
  rw [hp, List.getElem?_map] at h1
  rw [List.getD_eq_getElem?_getD, List.getD_eq_getElem?_getD, ← h1,
    List.getElem?_eq_getElem hi]
  rfl

/-- For an odd count the middle point must be its own reflection, hence
the origin. -/
theorem pairing_mid {S : List Point2D}
    (hp : S.reverse = S.map negPt) (hodd : S.length % 2 = 1) :
    S.getD (S.length / 2) pzero = pzero := by
  have hlen : 0 < S.length := by omega
  have hi : S.length / 2 < S.length := by omega
  have h := pairing_getD hp hi
  have he : S.length - 1 - S.length / 2 = S.length / 2 := by omega
  rw [he] at h
  rcases hq : S.getD (S.length / 2) pzero with ⟨qx, qy⟩
  rw [hq] at h
  simp only [negPt, Point2D.mk.injEq] at h
  have hx : qx = 0 := by linarith [h.1]
  have hy : qy = 0 := by linarith [h.2]
  simp [pzero, hx, hy]

/-! ## `CubicBezierSpline`: arena and control-point lemmas -/

theorem getD_map_negY (pts : List Point2D) (i : ℕ) :
    (pts.map negY).getD i pzero = negY (pts.getD i pzero) := by
  rw [List.getD_eq_getElem?_getD, List.getD_eq_getElem?_getD,
    List.getElem?_map]
  cases pts[i]? with
  | none => simp [negY, pzero]
  | some v => rfl

/-- `invert` does not change the x coordinate seen through any
reference. -/
theorem derefP_negY_x (pts : List Point2D) (r : PRef) :
    (derefP (pts.map negY) r).x = (derefP pts r).x := by
  cases r with
  | inl i =>
      show ((pts.map negY).getD i pzero).x = ((pts.getD i pzero)).x
      rw [getD_map_negY]
      rfl
  | inr v => rfl

theorem insB_negY (pts : List Point2D) (c : BezCP) (l : List BezCP) :
    CubicBezierSpline.insB (pts.map negY) c l = CubicBezierSpline.insB pts c l := by
  induction l with
  | nil => rfl
  | cons d t ih =>
      simp only [CubicBezierSpline.insB, derefP_negY_x, ih]

theorem sortB_negY (pts : List Point2D) (cps : List BezCP) :
    CubicBezierSpline.sortB (pts.map negY) cps = CubicBezierSpline.sortB pts cps := by
  induction cps with
  | nil => rfl
  | cons c t ih =>
      show CubicBezierSpline.insB (pts.map negY) c (CubicBezierSpline.sortB (pts.map negY) t)
        = CubicBezierSpline.insB pts c (CubicBezierSpline.sortB pts t)
      rw [ih, insB_negY]

theorem bind_cons_isSome (o : Option (List (List (ℚ × Point2D))))
    (t : List (ℚ × Point2D)) :
    (o.bind fun r => some (t :: r)).isSome = o.isSome := by
  cases o <;> rfl

/-- Whether `_generate_lookup` raises depends only on which handles are
present, not on the point arena. -/
theorem genLookup_isSome_negY (pts : List Point2D) (cps : List BezCP) :
    (CubicBezierSpline.genLookup (pts.map negY) cps).isSome
      = (CubicBezierSpline.genLookup pts cps).isSome := by
  induction cps with
  | nil => rfl
  | cons c1 rest ih =>
      cases rest with
      | nil => rfl
      | cons c2 rest' =>
          cases hhr : c1.handle_right with
          | none => simp [CubicBezierSpline.genLookup, hhr]
          | some hr =>
              cases hhl : c2.handle_left with
              | none => simp [CubicBezierSpline.genLookup, hhr, hhl]
              | some hl =>
                  simp only [CubicBezierSpline.genLookup, hhr, hhl,
                    Option.bind_eq_bind, Option.some_bind]
                  rw [bind_cons_isSome, bind_cons_isSome, ih]

theorem map_center_insB (pts : List Point2D) (c : BezCP) (l : List BezCP) :
    (CubicBezierSpline.insB pts c l).map (fun cp => derefP pts cp.center)
      = insP (derefP pts c.center) (l.map fun cp => derefP pts cp.center) := by
  induction l with
  | nil => rfl
  | cons d t ih =>
      by_cases h : (derefP pts d.center).x < (derefP pts c.center).x
      · simp only [CubicBezierSpline.insB, h, if_true, List.map_cons, insP, ih]
      · simp only [CubicBezierSpline.insB, h, if_false, List.map_cons, insP,
          ite_false]

theorem map_center_sortB (pts : List Point2D) (cps : List BezCP) :
    (CubicBezierSpline.sortB pts cps).map (fun cp => derefP pts cp.center)
      = sortPts (cps.map fun cp => derefP pts cp.center) := by
  induction cps with
  | nil => rfl
  | cons c t ih =>
      show (CubicBezierSpline.insB pts c (CubicBezierSpline.sortB pts t)).map _
        = insP (derefP pts c.center) (sortPts (t.map fun cp => derefP pts cp.center))
      rw [map_center_insB, ih]

theorem zipWith_mirror_map (pts : List Point2D) :
    ∀ (l1 l2 : List BezCP), l1.length ≤ l2.length →
      (List.zipWith (CubicBezierSpline.mirrorWith pts) l1 l2).map
          (fun cp => derefP pts cp.center)
        = l1.map fun a => negPt (derefP pts a.center) := by
  intro l1
  induction l1 with
  | nil => intro l2 _; rfl
  | cons a t ih =>
      intro l2 hl
      cases l2 with
      | nil => simp at hl
      | cons b s =>
          simp only [List.zipWith_cons_cons, List.map_cons,
            ih s (by simpa using hl), List.cons.injEq, and_true]
          simp [CubicBezierSpline.mirrorWith, derefP, negPt]

/-- The centers of the enforced control points have the
first-half/middle/mirrored-second-half shape. -/
theorem centers_enforceB (pts : List Point2D) (cps : List BezCP) :
    (CubicBezierSpline.enforceB pts cps).map (fun cp => derefP pts cp.center)
      = (cps.map fun cp => derefP pts cp.center).take (cps.length / 2)
        ++ (if cps.length % 2 = 1 then [pzero] else [])
        ++ (((cps.map fun cp => derefP pts cp.center).take (cps.length / 2)).map
              negPt).reverse := by
  unfold CubicBezierSpline.enforceB
  simp only [List.map_append]
  congr 1
  · congr 1
    · exact (List.map_take _ _ _).symm ▸ rfl
    · by_cases h : cps.length % 2 = 1 <;> simp [h, derefP]
  · rw [zipWith_mirror_map pts _ _ (by
      simp only [List.length_reverse, List.length_take, List.length_drop]
      omega)]
    rw [List.map_reverse]
    congr 1
    rw [← List.map_take, List.map_map]
    rfl

/-! ## Clamping -/

theorem clamp_idem (v lo hi : ℚ) : clamp (clamp v lo hi) lo hi = clamp v lo hi := by
  unfold clamp
  rcases le_total (max lo v) hi with h | h
  · rw [min_eq_right h, max_eq_right (le_max_left lo v), min_eq_right h]
  · rw [min_eq_left h]
    rcases le_total lo hi with h2 | h2
    · rw [max_eq_right h2, min_self]
    · rw [max_eq_left h2, min_eq_left h2]

/-! ## The claims -/

set_option maxHeartbeats 1000000

/-- C1.  The claim is false of the code (a code bug): `bezBad` is a
`CubicBezierSpline` built from a structurally valid point list
(`L = 4`, `(L-4) % 3 = 0`, strictly ascending), yet evaluating it at
`x = 0.8 ∈ [-1, 1]` raises: `x` exceeds the last knot (`0.5`), the
binary search pushes `interval` up to `[100, 101]`, and
`self._lookup[index][101]` is an out-of-range index into the 101-entry
table. -/
theorem spec_c1_eval_raises : CubicBezierSpline.eval bezBad (4/5) = none := by
  decide

/-- C2 counterexample.  The claim says a flat list of length `L = 5`
(`(5-4) % 3 = 1 ≠ 0`) raises `InvalidCurveDefinition`; in fact
`CubicBezierSpline` construction performs no such check and succeeds. -/
theorem spec_c2_counterexample :
    (CubicBezierSpline.construct (bezLenPoints 5)).isSome = true := by
  decide

/-- C2 amended.  Construction from an ascending flat point list performs
no `(L - 4) % 3` validation and raises no structural error: it succeeds
for `L = 4, 7, 10` and equally for `L = 5` and `L = 6`; only lists with
fewer than two points fail (with an index error, not
`InvalidCurveDefinition`, which does not exist in the code). -/
theorem spec_c2_amended :
    (CubicBezierSpline.construct (bezLenPoints 4)).isSome = true ∧
    (CubicBezierSpline.construct (bezLenPoints 5)).isSome = true ∧
    (CubicBezierSpline.construct (bezLenPoints 6)).isSome = true ∧
    (CubicBezierSpline.construct (bezLenPoints 7)).isSome = true ∧
    (CubicBezierSpline.construct (bezLenPoints 10)).isSome = true ∧
    CubicBezierSpline.construct (bezLenPoints 1) = none := by
  refine ⟨by decide, by decide, by decide, by decide, by decide, by decide⟩

/-- C3.  The claim is right and the code is wrong (a code bug):
`AbstractCurve.add_control_point`'s docstring promises "adding
additional points if the curve is in the symmetric mode", but
`CubicSpline.add_control_point` (and `CubicBezierSpline`'s) appends only
the one point.  On the symmetric default cubic spline,
`add_control_point(0.5, 0.5)` leaves 3 points — the mirror
`(-0.5, -0.5)` is missing. -/
theorem spec_c3_no_mirror_insert :
    cCSsym.is_symmetric = true ∧
    (cCSsym.addControlPoint (1/2) (1/2)).points.length = cCSsym.points.length + 1 ∧
    (⟨-1/2, -1/2⟩ : Point2D) ∉ (cCSsym.addControlPoint (1/2) (1/2)).points := by
  refine ⟨by decide, by decide, by decide⟩

/-- C4 counterexample.  `CubicSpline.__call__` does *not* clamp: on the
default cubic spline, `evaluate(2) ≠ evaluate(clamp(2)) = evaluate(1)`
(the code extrapolates past the last point). -/
theorem spec_c4_counterexample :
    CubicSpline.eval cCS 2 ≠ CubicSpline.eval cCS (clamp 2 (-1) 1) := by
  decide

/-- C4 amended.  `PiecewiseLinear.__call__` and
`CubicBezierSpline.__call__` first clamp x to `[-1, 1]`, so evaluation
factors through the clamp; `CubicSpline.__call__` performs no clamping
(see the counterexample). -/
theorem spec_c4_amended :
    (∀ (c : PiecewiseLinear) (x : ℚ),
      PiecewiseLinear.eval c x = PiecewiseLinear.eval c (clamp x (-1) 1)) ∧
    (∀ (b : CubicBezierSpline) (x : ℚ),
      CubicBezierSpline.eval b x = CubicBezierSpline.eval b (clamp x (-1) 1)) := by
  refine ⟨fun c x => ?_, fun b x => ?_⟩
  · unfold PiecewiseLinear.eval
    rw [clamp_idem]
  · unfold CubicBezierSpline.eval
    rw [clamp_idem]

/-- C5.  The claim is right and the code is wrong (a code bug):
`_value_at_t` computes `mt3 = mt2 ** 3 = (1-t)^6` instead of `(1-t)^3`,
so the lookup table does not hold the standard cubic Bézier points.  On
the default curve's only segment, entry 50 is `(0.5, (7/64, 7/64))`
while the standard Bézier point at `t = 0.5` is `(0, 0)`.  (The table
does have 101 entries at `t = j * 0.01` as claimed.) -/
theorem spec_c5_lookup_not_standard :
    (CubicBezierSpline.genLookup cBez.pts cBez.cps).map
        (fun L => (L.getD 0 []).length) = some 101 ∧
    (CubicBezierSpline.genLookup cBez.pts cBez.cps).map
        (fun L => (L.getD 0 []).getD 50 (0, pzero))
      = some (1/2, ⟨7/64, 7/64⟩) ∧
    standardBezier ⟨-1, -1⟩ ⟨-19/20, -19/20⟩ ⟨19/20, 19/20⟩ ⟨1, 1⟩ (1/2) = pzero ∧
    ((⟨7/64, 7/64⟩ : Point2D) ≠ pzero) := by
  refine ⟨by decide, by decide, by decide, by decide⟩

/-! ## C6: the symmetry invariant -/

theorem setSym_points_PL (c : PiecewiseLinear) (h : c.is_symmetric = false) :
    (c.setIsSymmetric true).points = sortPts (enforceSymmetryPts c.points) := by
  unfold PiecewiseLinear.setIsSymmetric
  rw [h]
  simp [PiecewiseLinear.fit]

theorem setSym_points_CS (c : CubicSpline) (h : c.is_symmetric = false) :
    (c.setIsSymmetric true).points = sortPts (enforceSymmetryPts c.points) := by
  unfold CubicSpline.setIsSymmetric
  rw [h]
  simp [CubicSpline.fit]

theorem pairing_setSym_PL (c : PiecewiseLinear) (h : c.is_symmetric = false) :
    (c.setIsSymmetric true).points.reverse
      = (c.setIsSymmetric true).points.map negPt := by
  rw [setSym_points_PL c h]
  exact sortPts_pairing (enforce_pairing c.points)

theorem pairing_setSym_CS (c : CubicSpline) (h : c.is_symmetric = false) :
    (c.setIsSymmetric true).points.reverse
      = (c.setIsSymmetric true).points.map negPt := by
  rw [setSym_points_CS c h]
  exact sortPts_pairing (enforce_pairing c.points)

theorem setSym_Bez_fields (b : CubicBezierSpline) (h : b.is_symmetric = false)
    (b' : CubicBezierSpline) (hb : b.setIsSymmetric true = some b') :
    b'.pts = b.pts ∧
    b'.cps = CubicBezierSpline.sortB b.pts (CubicBezierSpline.enforceB b.pts b.cps) := by
  unfold CubicBezierSpline.setIsSymmetric at hb
  rw [h] at hb
  simp only [Bool.true_eq_false, if_false, if_true, reduceIte] at hb
  unfold CubicBezierSpline.fit at hb
  rcases Option.map_eq_some'.mp hb with ⟨tbl, -, heq⟩
  rw [← heq]
  exact ⟨rfl, rfl⟩

theorem pairing_setSym_Bez (b : CubicBezierSpline) (h : b.is_symmetric = false)
    (b' : CubicBezierSpline) (hb : b.setIsSymmetric true = some b') :
    (CubicBezierSpline.centers b').reverse
      = (CubicBezierSpline.centers b').map negPt := by
  rcases setSym_Bez_fields b h b' hb with ⟨hpts, hcps⟩
  unfold CubicBezierSpline.centers
  rw [hpts, hcps, map_center_sortB, centers_enforceB]
  apply sortPts_pairing
  apply pairing_shape
  by_cases hodd : b.cps.length % 2 = 1 <;> simp [hodd, negPt_pzero]

/-- C6.  For every variant, switching `is_symmetric` on from off yields
control points satisfying the mirror pairing — the point at index
`count-1-i` is `(-x_i, -y_i)`, and an odd-count middle point is
`(0, 0)` — and this is the state *after* the re-sort done by `fit()`
(for Bézier, provided the setter completes, i.e. returns `some`). -/
theorem spec_c6_symmetry_invariant :
    (∀ c : PiecewiseLinear, c.is_symmetric = false →
      (∀ i, i < (c.setIsSymmetric true).points.length →
        (c.setIsSymmetric true).points.getD
            ((c.setIsSymmetric true).points.length - 1 - i) pzero
          = negPt ((c.setIsSymmetric true).points.getD i pzero)) ∧
      ((c.setIsSymmetric true).points.length % 2 = 1 →
        (c.setIsSymmetric true).points.getD
            ((c.setIsSymmetric true).points.length / 2) pzero = pzero)) ∧
    (∀ c : CubicSpline, c.is_symmetric = false →
      (∀ i, i < (c.setIsSymmetric true).points.length →
        (c.setIsSymmetric true).points.getD
            ((c.setIsSymmetric true).points.length - 1 - i) pzero
          = negPt ((c.setIsSymmetric true).points.getD i pzero)) ∧
      ((c.setIsSymmetric true).points.length % 2 = 1 →
        (c.setIsSymmetric true).points.getD
            ((c.setIsSymmetric true).points.length / 2) pzero = pzero)) ∧
    (∀ b : CubicBezierSpline, b.is_symmetric = false →
      ∀ b', b.setIsSymmetric true = some b' →
      (∀ i, i < (CubicBezierSpline.centers b').length →
        (CubicBezierSpline.centers b').getD
            ((CubicBezierSpline.centers b').length - 1 - i) pzero
          = negPt ((CubicBezierSpline.centers b').getD i pzero)) ∧
      ((CubicBezierSpline.centers b').length % 2 = 1 →
        (CubicBezierSpline.centers b').getD
            ((CubicBezierSpline.centers b').length / 2) pzero = pzero)) := by
  refine ⟨fun c h => ?_, fun c h => ?_, fun b h b' hb => ?_⟩
  · exact ⟨fun i hi => pairing_getD (pairing_setSym_PL c h) hi,
      fun hodd => pairing_mid (pairing_setSym_PL c h) hodd⟩
  · exact ⟨fun i hi => pairing_getD (pairing_setSym_CS c h) hi,
      fun hodd => pairing_mid (pairing_setSym_CS c h) hodd⟩
  · exact ⟨fun i hi => pairing_getD (pairing_setSym_Bez b h b' hb) hi,
      fun hodd => pairing_mid (pairing_setSym_Bez b h b' hb) hodd⟩

/-- C6 witness: the theorem applied to the concrete asymmetric 4-point
piecewise-linear curve `pAsym` at index 1 (with all hypotheses
discharged by computation). -/
theorem spec_c6_witness :
    (pAsym.setIsSymmetric true).points.getD
        ((pAsym.setIsSymmetric true).points.length - 1 - 1) pzero
      = negPt ((pAsym.setIsSymmetric true).points.getD 1 pzero) :=
  (spec_c6_symmetry_invariant.1 pAsym (by decide)).1 1 (by decide)

/-! ## C7/C9: inversion -/

theorem negY_comp_negY : negY ∘ negY = id := funext negY_negY

theorem length_fitZCore (P : List Point2D) :
    (CubicSpline.fitZCore P).length = P.length - 1 + 1 := by
  unfold CubicSpline.fitZCore
  simp

theorem fitZ_fitZ (P P' : List Point2D) (z : List ℚ)
    (hlen : P'.length = P.length) :
    CubicSpline.fitZ P (CubicSpline.fitZ P' z) = CubicSpline.fitZ P z := by
  unfold CubicSpline.fitZ
  by_cases h : P.length - 1 < 2
  · rw [if_pos h, if_pos (by omega : P'.length - 1 < 2), if_pos h]
  · rw [if_neg h, if_neg (by omega : ¬P'.length - 1 < 2), if_neg h]
    have hl : (CubicSpline.fitZCore P').length = P.length := by
      rw [length_fitZCore]
      omega
    have hdrop : (CubicSpline.fitZCore P' ++ z.drop P'.length).drop P.length
        = z.drop P'.length := by
      rw [← hl]
      exact List.drop_left _ _
    rw [hdrop, hlen]

theorem cs_fit_points {c : CubicSpline} (h : c.fit = c) :
    sortPts c.points = c.points := by
  have := congrArg CubicSpline.points h
  simpa [CubicSpline.fit] using this

theorem cs_fit_z {c : CubicSpline} (h : c.fit = c) :
    CubicSpline.fitZ c.points c.z = c.z := by
  have hz := congrArg CubicSpline.z h
  simp only [CubicSpline.fit] at hz
  rwa [cs_fit_points h] at hz

theorem bez_fit_fields {b : CubicBezierSpline} (h : b.fit = some b) :
    CubicBezierSpline.sortB b.pts b.cps = b.cps ∧
    (CubicBezierSpline.genLookup b.pts b.cps).isSome = true := by
  unfold CubicBezierSpline.fit at h
  rcases Option.map_eq_some'.mp h with ⟨tbl, htbl, heq⟩
  have hcps : CubicBezierSpline.sortB b.pts b.cps = b.cps := by
    have := congrArg CubicBezierSpline.cps heq
    simpa using this
  rw [hcps] at htbl
  exact ⟨hcps, by rw [htbl]; rfl⟩

theorem map_const_of_isSome {α β : Type} (o : Option α) (x : β)
    (h : o.isSome = true) : o.map (fun _ => x) = some x := by
  cases o with
  | none => cases h
  | some a => rfl

/-- On a fit-consistent Bézier state, `invert` succeeds and its effect on
the state is exactly the y-negation of the point arena. -/
theorem bez_invert_of_fit {b : CubicBezierSpline} (h : b.fit = some b) :
    b.invert = some ⟨b.pts.map negY, b.cps, b.is_symmetric⟩ := by
  rcases bez_fit_fields h with ⟨hcps, hsome⟩
  unfold CubicBezierSpline.invert CubicBezierSpline.fit
  simp only
  rw [sortB_negY, hcps]
  apply map_const_of_isSome
  rw [genLookup_isSome_negY, hsome]

/-- C7.  Double inversion restores the state exactly — `PiecewiseLinear`
unconditionally, `CubicSpline` and `CubicBezierSpline` (whose `invert`
re-runs `fit`) on every fit-consistent state, i.e. every state reachable
through the API. -/
theorem spec_c7_double_invert :
    (∀ c : PiecewiseLinear, c.invert.invert = c) ∧
    (∀ c : CubicSpline, c.fit = c → c.invert.invert = c) ∧
    (∀ b : CubicBezierSpline, b.fit = some b →
      b.invert.bind CubicBezierSpline.invert = some b) := by
  refine ⟨fun c => ?_, fun c h => ?_, fun b h => ?_⟩
  · obtain ⟨pts, sym⟩ := c
    simp only [PiecewiseLinear.invert, List.map_map, negY_comp_negY,
      List.map_id]
  · obtain ⟨pts, z, sym⟩ := c
    have hpts : sortPts pts = pts := cs_fit_points h
    have hz : CubicSpline.fitZ pts z = z := cs_fit_z h
    have hs1 : sortPts (pts.map negY) = pts.map negY := by
      rw [← map_negY_sortPts, hpts]
    have hnn : (pts.map negY).map negY = pts := by
      rw [List.map_map, negY_comp_negY, List.map_id]
    have h1 : CubicSpline.invert ⟨pts, z, sym⟩
        = ⟨pts.map negY, CubicSpline.fitZ (pts.map negY) z, sym⟩ := by
      show CubicSpline.fit ⟨pts.map negY, z, sym⟩ = _
      unfold CubicSpline.fit
      simp only [hs1]
    have h2 : CubicSpline.invert ⟨pts.map negY, CubicSpline.fitZ (pts.map negY) z, sym⟩
        = ⟨pts, CubicSpline.fitZ pts (CubicSpline.fitZ (pts.map negY) z), sym⟩ := by
      show CubicSpline.fit ⟨(pts.map negY).map negY, _, sym⟩ = _
      unfold CubicSpline.fit
      simp only [hnn, hpts]
    rw [h1, h2, fitZ_fitZ pts (pts.map negY) z (by simp), hz]
  · rw [bez_invert_of_fit h]
    show CubicBezierSpline.invert ⟨b.pts.map negY, b.cps, b.is_symmetric⟩ = some b
    have hnn : (b.pts.map negY).map negY = b.pts := by
      rw [List.map_map, negY_comp_negY, List.map_id]
    unfold CubicBezierSpline.invert
    simp only [hnn]
    show CubicBezierSpline.fit b = some b
    exact h

/-- C7 witness: double inversion at the three concrete default curves,
the fit-consistency hypotheses discharged by computation. -/
theorem spec_c7_witness :
    cPL.invert.invert = cPL ∧
    cCS.invert.invert = cCS ∧
    cBez.invert.bind CubicBezierSpline.invert = some cBez :=
  ⟨spec_c7_double_invert.1 cPL,
   spec_c7_double_invert.2.1 cCS (by decide),
   spec_c7_double_invert.2.2 cBez (by decide)⟩

/-- The x projection of a control point and its handles, as seen through
a given point arena. -/
def bezXProj (pts : List Point2D) (cp : BezCP) :
    ℚ × Option ℚ × Option ℚ :=
  ((derefP pts cp.center).x,
   cp.handle_left.map fun r => (derefP pts r).x,
   cp.handle_right.map fun r => (derefP pts r).x)

theorem bezXProj_negY (pts : List Point2D) (cp : BezCP) :
    bezXProj (pts.map negY) cp = bezXProj pts cp := by
  unfold bezXProj
  refine congrArg₂ _ (derefP_negY_x pts cp.center) (congrArg₂ _ ?_ ?_)
  · cases cp.handle_left with
    | none => rfl
    | some r => simp [derefP_negY_x]
  · cases cp.handle_right with
    | none => rfl
    | some r => simp [derefP_negY_x]

/-- C9.  `invert` changes only y coordinates: every control point's (and
Bézier handle's) x coordinate, the number of control points, and the
`is_symmetric` flag are unchanged — `PiecewiseLinear` unconditionally,
`CubicSpline` on sorted points (its `invert` re-sorts), and
`CubicBezierSpline` on fit-consistent states. -/
theorem spec_c9_invert_frame :
    (∀ c : PiecewiseLinear,
      c.invert.points.map Point2D.x = c.points.map Point2D.x ∧
      c.invert.points.length = c.points.length ∧
      c.invert.is_symmetric = c.is_symmetric) ∧
    (∀ c : CubicSpline, c.points.Pairwise (fun a b => a.x ≤ b.x) →
      c.invert.points.map Point2D.x = c.points.map Point2D.x ∧
      c.invert.points.length = c.points.length ∧
      c.invert.is_symmetric = c.is_symmetric) ∧
    (∀ b : CubicBezierSpline, b.fit = some b →
      b.invert.map (fun s => s.cps.map (bezXProj s.pts))
        = some (b.cps.map (bezXProj b.pts)) ∧
      b.invert.map (fun s => s.cps.length) = some b.cps.length ∧
      b.invert.map (fun s => s.is_symmetric) = some b.is_symmetric) := by
  have hxmap : ∀ l : List Point2D, (l.map negY).map Point2D.x = l.map Point2D.x := by
    intro l
    rw [List.map_map]
    rfl
  refine ⟨fun c => ?_, fun c h => ?_, fun b h => ?_⟩
  · exact ⟨hxmap c.points, by simp [PiecewiseLinear.invert], rfl⟩
  · have hs1 : sortPts (c.points.map negY) = c.points.map negY := by
      rw [← map_negY_sortPts, sortPts_of_sorted h]
    have hp : c.invert.points = c.points.map negY := by
      show sortPts (c.points.map negY) = _
      exact hs1
    refine ⟨?_, ?_, rfl⟩
    · rw [hp, hxmap]
    · rw [hp, List.length_map]
  · rw [bez_invert_of_fit h]
    refine ⟨?_, rfl, rfl⟩
    show some (b.cps.map (bezXProj (b.pts.map negY))) = some (b.cps.map (bezXProj b.pts))
    have : ∀ cp ∈ b.cps, bezXProj (b.pts.map negY) cp = bezXProj b.pts cp :=
      fun cp _ => bezXProj_negY b.pts cp
    rw [List.map_congr_left this]

/-- C9 witness: the frame conditions at the concrete default curves, the
hypotheses discharged by computation. -/
theorem spec_c9_witness :
    cCS.invert.points.map Point2D.x = cCS.points.map Point2D.x ∧
    cBez.invert.map (fun s => s.cps.map (bezXProj s.pts))
      = some (cBez.cps.map (bezXProj cBez.pts)) :=
  ⟨(spec_c9_invert_frame.2.1 cCS (by decide)).1,
   (spec_c9_invert_frame.2.2 cBez (by decide)).1⟩

/-! ## C10: the piecewise-linear curve passes through its control
points -/

theorem clamp_eq_self {v lo hi : ℚ} (h1 : lo ≤ v) (h2 : v ≤ hi) :
    clamp v lo hi = v := by
  unfold clamp
  rw [max_eq_right h1, min_eq_right h2]

theorem getLast_cons_cons (a b : Point2D) (t : List Point2D) :
    (a :: b :: t).getLast (by simp) = (b :: t).getLast (by simp) :=
  List.getLast_cons _

theorem mem_lt_getLast {l : List Point2D}
    (hl : l.Pairwise (fun a b => a.x < b.x)) (hne : l ≠ [])
    {p : Point2D} (hp : p ∈ l) :
    p = l.getLast hne ∨ p.x < (l.getLast hne).x := by
  induction l with
  | nil => cases hp
  | cons a t ih =>
      cases t with
      | nil =>
          rcases List.mem_singleton.mp hp with rfl
          exact Or.inl rfl
      | cons b t' =>
          rcases List.pairwise_cons.mp hl with ⟨ha, ht⟩
          rw [getLast_cons_cons]
          rcases List.mem_cons.mp hp with rfl | hp'
          · exact Or.inr (ha _ (List.getLast_mem _))
          · exact ih ht (by simp) hp'

theorem scan_hits {l : List Point2D}
    (hl : l.Pairwise (fun a b => a.x < b.x)) {p : Point2D} (hp : p ∈ l)
    (hq : ∃ q ∈ l, p.x < q.x) :
    PiecewiseLinear.scan l p.x = some p.y := by
  induction l with
  | nil => cases hp
  | cons a t ih =>
      cases t with
      | nil =>
          rcases List.mem_singleton.mp hp with rfl
          rcases hq with ⟨q, hqm, hqlt⟩
          rcases List.mem_singleton.mp hqm with rfl
          exact absurd hqlt (lt_irrefl _)
      | cons b t' =>
          rcases List.pairwise_cons.mp hl with ⟨ha, ht⟩
          rcases List.mem_cons.mp hp with rfl | hp'
          · have hab : p.x < b.x := ha b (List.mem_cons_self b t')
            show (if p.x ≤ p.x ∧ p.x < b.x then
              some (p.y + (b.y - p.y) * (p.x - p.x) / (b.x - p.x))
              else PiecewiseLinear.scan (b :: t') p.x) = some p.y
            rw [if_pos ⟨le_refl _, hab⟩]
            simp
          · have hax : a.x < p.x := ha p hp'
            have hbranch : ¬(a.x ≤ p.x ∧ p.x < b.x) := by
              rintro ⟨-, hlt⟩
              rcases List.mem_cons.mp hp' with rfl | hp''
              · exact lt_irrefl _ hlt
              · rcases List.pairwise_cons.mp ht with ⟨hb, -⟩
                exact absurd hlt (not_lt.mpr (le_of_lt (hb p hp'')))
            show (if a.x ≤ p.x ∧ p.x < b.x then
              some (a.y + (b.y - a.y) * (p.x - a.x) / (b.x - a.x))
              else PiecewiseLinear.scan (b :: t') p.x) = some p.y
            rw [if_neg hbranch]
            apply ih ht hp'
            rcases hq with ⟨q, hqm, hqlt⟩
            refine ⟨q, ?_, hqlt⟩
            rcases List.mem_cons.mp hqm with rfl | hqm'
            · exact absurd hqlt (not_lt.mpr (le_of_lt hax))
            · exact hqm'

/-- C10.  A `PiecewiseLinear` curve whose control points have
pairwise-distinct (here: strictly ascending, which the sorted-points
invariant makes equivalent) x values inside `[-1, 1]` passes exactly
through every one of its control points. -/
theorem spec_c10_through_points :
    ∀ (c : PiecewiseLinear), c.points.Pairwise (fun a b => a.x < b.x) →
    ∀ p ∈ c.points, -1 ≤ p.x → p.x ≤ 1 →
    c.eval p.x = some p.y := by
  intro c hc p hp h1 h2
  unfold PiecewiseLinear.eval
  rw [clamp_eq_self h1 h2]
  unfold PiecewiseLinear.evalCore
  cases hpts : c.points with
  | nil => rw [hpts] at hp; cases hp
  | cons p0 rest =>
      rw [hpts] at hp hc
      have hne : p0 :: rest ≠ [] := by simp
      have hgl : (p0 :: rest).getLast? = some ((p0 :: rest).getLast hne) :=
        List.getLast?_eq_getLast _ _
      rw [hgl]
      simp only
      by_cases hfirst : p.x ≤ p0.x
      · have hp0 : p = p0 := by
          rcases List.mem_cons.mp hp with rfl | hp'
          · rfl
          · rcases List.pairwise_cons.mp hc with ⟨h0, -⟩
            exact absurd hfirst (not_le.mpr (h0 p hp'))
        rw [if_pos hfirst, hp0]
      · rw [if_neg hfirst]
        rcases mem_lt_getLast hc hne hp with heq | hlt
        · rw [if_pos (le_of_eq (congrArg Point2D.x heq.symm))]
          rw [heq]
        · rw [if_neg (not_le.mpr hlt)]
          exact scan_hits hc hp ⟨_, List.getLast_mem hne, hlt⟩

/-- C10 witness: the concrete curve `pl3` through its middle control
point `(0, 1)`, all hypotheses discharged by computation. -/
theorem spec_c10_witness : pl3.eval 0 = some 1 :=
  spec_c10_through_points pl3 (by decide) ⟨0, 1⟩ (by decide) (by decide)
    (by decide)

/-- C8 counterexample.  After `add_control_point(0, 1)` on the default
piecewise-linear curve, `evaluate(0.5)` interpolates between `(0, 1)` and
`(1, 1)` and is therefore `1`, not the claimed `0.75`. -/
theorem spec_c8_counterexample :
    PiecewiseLinear.eval (cPL.addControlPoint 0 1) (1/2) ≠ some (3/4) := by
  decide

/-- C8 amended.  On the default piecewise-linear curve:
`evaluate(-2) = -1`, `evaluate(2) = 1`, `evaluate(0) = 0`,
`evaluate(0.5) = 0.5`; after `add_control_point(0, 1)`,
`evaluate(0.5) = 1` (interpolating between `(0, 1)` and `(1, 1)`). -/
theorem spec_c8_amended :
    PiecewiseLinear.eval cPL (-2) = some (-1) ∧
    PiecewiseLinear.eval cPL 2 = some 1 ∧
    PiecewiseLinear.eval cPL 0 = some 0 ∧
    PiecewiseLinear.eval cPL (1/2) = some (1/2) ∧
    PiecewiseLinear.eval (cPL.addControlPoint 0 1) (1/2) = some 1 := by
  refine ⟨by decide, by decide, by decide, by decide, by decide⟩
